import Mathlib

/-!
Verification of the variant generation engine of the Commander Spellbook
backend, a shallow embedding of backend/spellbook/variants.py.

Conventions used throughout:
* Python ints are Nat (all ids are non-negative database keys);
* Python sets of ids are Finset Nat, Python lists are List Nat;
* the stateful pruning pass threads an explicit state record and uses fuel
  for the mutual recursion, with a separate sufficiency theorem;
* the external MILP solver (pyomo + glpk) is modelled as an oracle that may
  only return assignments satisfying the model's constraints, per the solver
  port contract; the enumeration loop of Graph.variants is modelled as the
  set of solution traces such an oracle can produce.
-/

/-- Budget constant MAX_CARDS_IN_COMBO of variants.py. -/
def MAX_CARDS_IN_COMBO : Nat := 5

/-- Visit states of graph nodes (class NodeState of variants.py). -/
inductive NodeState where
  | NOT_VISITED
  | VISITING
  | VISITED
deriving DecidableEq

/-- Variant statuses used by the engine (Variant.Status values appearing in
variants.py and admin.py: NEW, DRAFT, OK, RESTORE, NOT_WORKING). -/
inductive VStatus where
  | NEW
  | DRAFT
  | OK
  | RESTORE
  | NOT_WORKING
deriving DecidableEq

/-- Embedding of merge_identities (variants.py): uppercase the concatenation
of the inputs and keep, in the fixed order W,U,B,R,G, exactly the letters
occurring in it. -/
def merge_identities (identities : List String) : String :=
  let i := (String.join identities).data.map Char.toUpper
  String.mk (['W', 'U', 'B', 'R', 'G'].filter (fun color => i.contains color))

/-- Embedding of includes_any (variants.py): whether v is a superset of some
element of others. -/
def includes_any (v : Finset Nat) (others : List (Finset Nat)) : Bool :=
  others.any (fun o => decide (o ⊆ v))

/-- Python's sorted on a list of ints: ascending order. Python's sort is
stable, but on integer values the sorted output is unique, so insertion sort
computes the same function. -/
def pysorted (l : List Nat) : List Nat := l.insertionSort (· ≤ ·)

/-! SHA-256, byte-level, over Nat with explicit reduction mod 2 ^ 32.
Needed because unique_id_from_cards_and_templates_ids hashes a JSON document
with hashlib.sha256. -/

/-- Right rotation of a 32-bit word. -/
def rotr32 (n x : Nat) : Nat := ((x >>> n) ||| (x <<< (32 - n))) % 2 ^ 32

/-- Three-way xor. -/
def xor3 (a b c : Nat) : Nat := (a ^^^ b) ^^^ c

/-- SHA-256 round constants. -/
def sha256K : List Nat :=
  [1116352408, 1899447441, 3049323471, 3921009573, 961987163, 1508970993,
   2453635748, 2870763221, 3624381080, 310598401, 607225278, 1426881987,
   1925078388, 2162078206, 2614888103, 3248222580, 3835390401, 4022224774,
   264347078, 604807628, 770255983, 1249150122, 1555081692, 1996064986,
   2554220882, 2821834349, 2952996808, 3210313671, 3336571891, 3584528711,
   113926993, 338241895, 666307205, 773529912, 1294757372, 1396182291,
   1695183700, 1986661051, 2177026350, 2456956037, 2730485921, 2820302411,
   3259730800, 3345764771, 3516065817, 3600352804, 4094571909, 275423344,
   430227734, 506948616, 659060556, 883997877, 958139571, 1322822218,
   1537002063, 1747873779, 1955562222, 2024104815, 2227730452, 2361852424,
   2428436474, 2756734187, 3204031479, 3329325298]

/-- SHA-256 initial hash value. -/
def sha256H0 : List Nat :=
  [1779033703, 3144134277, 1013904242, 2773480762,
   1359893119, 2600822924, 528734635, 1541459225]

/-- Big-endian 32-bit words from a byte list. -/
def bytesToWordsBE : List Nat → List Nat
  | b0 :: b1 :: b2 :: b3 :: rest =>
      (b0 * 2 ^ 24 + b1 * 2 ^ 16 + b2 * 2 ^ 8 + b3) :: bytesToWordsBE rest
  | _ => []

/-- Extend the 16 block words to the 64-word message schedule. -/
def sha256Extend (w : List Nat) : List Nat :=
  (List.range 48).foldl (fun acc _ =>
    let n := acc.length
    let w15 := acc.getD (n - 15) 0
    let w2 := acc.getD (n - 2) 0
    let w16 := acc.getD (n - 16) 0
    let w7 := acc.getD (n - 7) 0
    let s0 := xor3 (rotr32 7 w15) (rotr32 18 w15) (w15 >>> 3)
    let s1 := xor3 (rotr32 17 w2) (rotr32 19 w2) (w2 >>> 10)
    acc ++ [(w16 + s0 + w7 + s1) % 2 ^ 32]) w

/-- Working state of the SHA-256 compression function. -/
structure SHA256St where
  a : Nat
  b : Nat
  c : Nat
  d : Nat
  e : Nat
  f : Nat
  g : Nat
  h : Nat


/-- One SHA-256 compression round. -/
def sha256Round (st : SHA256St) (k w : Nat) : SHA256St :=
  let S1 := xor3 (rotr32 6 st.e) (rotr32 11 st.e) (rotr32 25 st.e)
  let ch := (st.e &&& st.f) ^^^ ((st.e ^^^ 0xffffffff) &&& st.g)
  let temp1 := (st.h + S1 + ch + k + w) % 2 ^ 32
  let S0 := xor3 (rotr32 2 st.a) (rotr32 13 st.a) (rotr32 22 st.a)
  let maj := ((st.a &&& st.b) ^^^ (st.a &&& st.c)) ^^^ (st.b &&& st.c)
  let temp2 := (S0 + maj) % 2 ^ 32
  ⟨(temp1 + temp2) % 2 ^ 32, st.a, st.b, st.c, (st.d + temp1) % 2 ^ 32, st.e, st.f, st.g⟩

/-- Process one 64-byte block, updating the 8-word hash value. -/
def sha256Block (hs : List Nat) (block : List Nat) : List Nat :=
  let w := sha256Extend (bytesToWordsBE block)
  let init : SHA256St :=
    ⟨hs.getD 0 0, hs.getD 1 0, hs.getD 2 0, hs.getD 3 0,
     hs.getD 4 0, hs.getD 5 0, hs.getD 6 0, hs.getD 7 0⟩
  let fin := (sha256K.zip w).foldl (fun st p => sha256Round st p.1 p.2) init
  [(hs.getD 0 0 + fin.a) % 2 ^ 32, (hs.getD 1 0 + fin.b) % 2 ^ 32,
   (hs.getD 2 0 + fin.c) % 2 ^ 32, (hs.getD 3 0 + fin.d) % 2 ^ 32,
   (hs.getD 4 0 + fin.e) % 2 ^ 32, (hs.getD 5 0 + fin.f) % 2 ^ 32,
   (hs.getD 6 0 + fin.g) % 2 ^ 32, (hs.getD 7 0 + fin.h) % 2 ^ 32]

/-- Big-endian 8-byte encoding of a length in bits. -/
def beBytes8 (n : Nat) : List Nat :=
  [n / 2 ^ 56 % 256, n / 2 ^ 48 % 256, n / 2 ^ 40 % 256, n / 2 ^ 32 % 256,
   n / 2 ^ 24 % 256, n / 2 ^ 16 % 256, n / 2 ^ 8 % 256, n % 256]

/-- Big-endian 4-byte encoding of a 32-bit word. -/
def beBytes4 (n : Nat) : List Nat :=
  [n / 2 ^ 24 % 256, n / 2 ^ 16 % 256, n / 2 ^ 8 % 256, n % 256]

/-- SHA-256 padding: 0x80, zeros to 56 mod 64, then the bit length. -/
def sha256Pad (msg : List Nat) : List Nat :=
  msg ++ [0x80] ++ List.replicate ((119 - msg.length % 64) % 64) 0 ++ beBytes8 (msg.length * 8)

/-- Split a byte list into 64-byte chunks (fuel keeps the recursion
structural so that the kernel can evaluate it). -/
def chunks64Fuel : Nat → List Nat → List (List Nat)
  | 0, _ => []
  | _, [] => []
  | fuel + 1, l => l.take 64 :: chunks64Fuel fuel (l.drop 64)

/-- Split a byte list into 64-byte chunks. -/
def chunks64 (l : List Nat) : List (List Nat) := chunks64Fuel (l.length + 1) l

/-- SHA-256 digest of a byte string, as 32 bytes. -/
def sha256Bytes (msg : List Nat) : List Nat :=
  let final := (chunks64 (sha256Pad msg)).foldl sha256Block sha256H0
  final.foldr (fun w acc => beBytes4 w ++ acc) []

/-- Lowercase hex digit. -/
def hexDigit (n : Nat) : Char :=
  if n < 10 then Char.ofNat (48 + n) else Char.ofNat (87 + n)

/-- Two lowercase hex digits of a byte. -/
def byteToHex (b : Nat) : List Char := [hexDigit (b / 16), hexDigit (b % 16)]

/-- Lowercase hex string of a byte list. -/
def bytesToHex (bs : List Nat) : String :=
  String.mk (bs.foldr (fun b acc => byteToHex b ++ acc) [])

/-- Lowercase hex SHA-256 digest (hashlib.sha256(...).hexdigest()). -/
def sha256Hex (msg : List Nat) : String := bytesToHex (sha256Bytes msg)

/-- UTF-8 bytes of an ASCII string (every string hashed by the engine is
ASCII: digits, quotes, braces, commas, spaces). -/
def utf8Bytes (s : String) : List Nat := s.data.map Char.toNat

/-- Python json.dumps rendering of a list of ints with the default item
separator, which is a comma followed by a space. -/
def py_json_int_list (l : List Nat) : String :=
  "[" ++ String.intercalate ", " (l.map toString) ++ "]"

/-- Embedding of json.dumps applied to the two-key dict built in
unique_id_from_cards_and_templates_ids. Python's default separators put one
space after each ':' and each ','; dict literal key order (c then t) is
preserved. -/
def py_json_dumps_c_t (c t : List Nat) : String :=
  "\x7b\"c\": " ++ py_json_int_list c ++ ", \"t\": " ++ py_json_int_list t ++ "\x7d"

/-- Embedding of unique_id_from_cards_and_templates_ids (variants.py):
sha256 hexdigest of the UTF-8 encoded json.dumps of the dict with the two
sorted id lists. -/
def unique_id_from_cards_and_templates_ids (cards templates : List Nat) : String :=
  sha256Hex (utf8Bytes (py_json_dumps_c_t (pysorted cards) (pysorted templates)))

/-- The serialization the specification asserts: the same JSON document with
no whitespace at all. -/
def spec_json_no_whitespace (c t : List Nat) : String :=
  "\x7b\"c\":[" ++ String.intercalate "," (c.map toString) ++ "],\"t\":[" ++
    String.intercalate "," (t.map toString) ++ "]\x7d"

/-! Data model rows. The Django models file is not among the sources; the
row structures below carry exactly the fields variants.py reads and writes,
and the two defaults it relies on are modelled from the spec. -/

/-- Card row: id and color identity string. -/
structure CardRow where
  id : Nat
  identity : String
deriving DecidableEq

/-- Combo row: the Combo fields read by the engine, with the ids of the
features it removes. -/
structure ComboRow where
  id : Nat
  zone_locations : String
  cards_state : String
  other_prerequisites : String
  mana_needed : String
  description : String
  removes : Finset Nat
deriving DecidableEq

/-- Variant row as persisted. Modelled from the spec where the missing
Django model decides a field: a newly constructed Variant has default
status NEW, and frozen is an independent boolean flag defaulting to false. -/
structure VariantRow where
  unique_id : String
  zone_locations : String
  cards_state : String
  other_prerequisites : String
  mana_needed : String
  description : String
  identity : String
  status : VStatus
  frozen : Bool
  uses : List Nat
  requires : List Nat
  of_ids : Finset Nat
  includes : Finset Nat
  produces : Finset Nat
deriving DecidableEq

/-- The VariantDefinition dataclass of variants.py. -/
structure VariantDefinition where
  card_ids : List Nat
  template_ids : List Nat
  of_ids : Finset Nat
  feature_ids : Finset Nat
  included_ids : Finset Nat
deriving DecidableEq

/-- The parts of the Data snapshot the reconciler reads. -/
structure Data where
  combos : List ComboRow
  cards : List CardRow
  variants : List VariantRow
  utility_features_ids : Finset Nat
  not_working_variants : List (Finset Nat)


/-- The combos of the snapshot whose id is in the given set, in snapshot
order (data.combos.filter(id__in=...)). -/
def included_combos (data : Data) (included : Finset Nat) : List ComboRow :=
  data.combos.filter (fun c => decide (c.id ∈ included))

/-- Union of the removes sets of the combos a variant includes
(variant.includes.values_list of removes). -/
def removed_features_of (data : Data) (included : Finset Nat) : Finset Nat :=
  ((included_combos data included).map (fun c => c.removes)).foldr (fun s acc => s ∪ acc) ∅

/-- Embedding of subtract_removed_features (variants.py), applied after the
includes association has been set to the given set. -/
def subtract_removed_features (data : Data) (variant_includes : Finset Nat)
    (features : Finset Nat) : Finset Nat :=
  features \ removed_features_of data variant_includes

/-- Embedding of the source's text joins: join with sep the given field of
the combos whose field is non-empty. -/
def join_field (sep : String) (combos : List ComboRow) (fld : ComboRow → String) : String :=
  String.intercalate sep ((combos.filter (fun c => decide (0 < (fld c).length))).map fld)

/-- Identity strings of the snapshot cards whose id is in the given list, in
snapshot order (values_list of identity). -/
def identities_of (data : Data) (card_ids : List Nat) : List String :=
  (data.cards.filter (fun c => decide (c.id ∈ card_ids))).map (fun c => c.identity)

/-- Embedding of create_variant (variants.py): builds and saves a fresh
variant row, then sets its associations. Default status NEW is modelled
from the spec (the Django model is not among the sources). Returns the
persisted row. -/
def create_variant (data : Data) (unique_id : String) (variant_def : VariantDefinition) : VariantRow :=
  let combos := included_combos data variant_def.included_ids
  let ok := !(includes_any variant_def.card_ids.toFinset data.not_working_variants)
  { unique_id := unique_id
    zone_locations := join_field "\n" combos (fun c => c.zone_locations)
    cards_state := join_field "\n" combos (fun c => c.cards_state)
    other_prerequisites := join_field "\n" combos (fun c => c.other_prerequisites)
    mana_needed := join_field " " combos (fun c => c.mana_needed)
    description := join_field "\n" combos (fun c => c.description)
    identity := merge_identities (identities_of data variant_def.card_ids)
    status := if ok then VStatus.NEW else VStatus.NOT_WORKING
    frozen := false
    uses := variant_def.card_ids
    requires := variant_def.template_ids
    of_ids := variant_def.of_ids
    includes := variant_def.included_ids
    produces := subtract_removed_features data variant_def.included_ids variant_def.feature_ids \
      data.utility_features_ids }

/-- Embedding of the body of update_variant (variants.py) after the variant
row has been fetched by unique id. Django semantics: the of / includes /
produces association writes persist immediately; plain field assignments
(identity, the text fields, status) reach the database only when
variant.save() runs, which the source does exactly when the variant is
tainted (not ok) or restore is set. Returns the row as persisted when the
call ends. -/
def update_variant_row (data : Data) (variant : VariantRow) (variant_def : VariantDefinition)
    (status : VStatus) (restore : Bool) : VariantRow :=
  let produces' := subtract_removed_features data variant_def.included_ids variant_def.feature_ids \
    data.utility_features_ids
  let ok : Bool := status == VStatus.OK ||
    (status != VStatus.NOT_WORKING && !(includes_any variant_def.card_ids.toFinset data.not_working_variants))
  let combos := included_combos data variant_def.included_ids
  let mem0 := { variant with
    of_ids := variant_def.of_ids
    includes := variant_def.included_ids
    produces := produces'
    identity := merge_identities (identities_of data variant.uses) }
  let mem1 := if restore then
      { mem0 with
        zone_locations := join_field "\n" combos (fun c => c.zone_locations)
        cards_state := join_field "\n" combos (fun c => c.cards_state)
        other_prerequisites := join_field "\n" combos (fun c => c.other_prerequisites)
        mana_needed := join_field " " combos (fun c => c.mana_needed)
        description := join_field "\n" combos (fun c => c.description)
        status := if ok then VStatus.NEW else VStatus.NOT_WORKING }
    else mem0
  let mem2 := if !ok then { mem1 with status := VStatus.NOT_WORKING } else mem1
  if !ok || restore then mem2
  else { variant with
    of_ids := variant_def.of_ids
    includes := variant_def.included_ids
    produces := produces' }

/-- Embedding of update_variant: fetch the row by unique id, then update. -/
def update_variant (data : Data) (unique_id : String) (variant_def : VariantDefinition)
    (status : VStatus) (restore : Bool) : Option VariantRow :=
  (data.variants.find? (fun v => v.unique_id == unique_id)).map
    (fun variant => update_variant_row data variant variant_def status restore)

/-- Embedding of the reconciliation phase of generate_variants: every
computed fingerprint already present is updated (restore is set exactly for
rows whose status was RESTORE at the start of the run, and the status passed
is the row's status), every new fingerprint is created, and rows whose
fingerprint was not recomputed are deleted unless frozen. The computed map
is an association list keyed by fingerprint. Returns the variant table
after the run. -/
def generate_variants (data : Data) (computed : List (String × VariantDefinition)) : List VariantRow :=
  let to_restore := (data.variants.filter (fun v => v.status == VStatus.RESTORE)).map
    (fun v => v.unique_id)
  let updated := data.variants.map (fun v =>
    match computed.lookup v.unique_id with
    | some vd => update_variant_row data v vd v.status (decide (v.unique_id ∈ to_restore))
    | none => v)
  let kept := updated.filter (fun v => (computed.lookup v.unique_id).isSome || v.frozen)
  let old_ids := data.variants.map (fun v => v.unique_id)
  let created := (computed.filter (fun p => decide (p.1 ∉ old_ids))).map
    (fun p => create_variant data p.1 p.2)
  kept ++ created

/-! The combo graph and the downward pruning pass (Graph._combo_nodes_down
and Graph._feature_nodes_down). -/

/-- Nodes of the combo graph, by kind and id; the four kinds have separate
id spaces, matching the four node dictionaries of the Graph class. -/
inductive GNode where
  | card (id : Nat)
  | tmpl (id : Nat)
  | feat (id : Nat)
  | combo (id : Nat)
deriving DecidableEq

/-- A ComboNode's edges, by id (built from the uses / requires / needs /
produces relations). -/
structure ComboN where
  id : Nat
  cards : List Nat
  templates : List Nat
  features_needed : List Nat
  features_produced : List Nat
deriving DecidableEq

/-- A FeatureNode's edges, by id. -/
structure FeatureN where
  id : Nat
  cards : List Nat
  produced_by_combos : List Nat
  needed_by_combos : List Nat
deriving DecidableEq

/-- The combo graph: node definitions looked up by id. -/
structure Graph where
  combos : List ComboN
  features : List FeatureN

/-- Combo node lookup. -/
def Graph.combo? (g : Graph) (i : Nat) : Option ComboN :=
  g.combos.find? (fun c => c.id == i)

/-- Feature node lookup. -/
def Graph.feat? (g : Graph) (i : Nat) : Option FeatureN :=
  g.features.find? (fun f => f.id == i)

/-- Mutable node bookkeeping of the pruning pass: visit state and depth per
node id, one family per node kind. -/
structure PruneSt where
  comboState : Nat → NodeState
  featState : Nat → NodeState
  cardState : Nat → NodeState
  tmplState : Nat → NodeState
  comboDepth : Nat → Nat
  featDepth : Nat → Nat
  cardDepth : Nat → Nat
  tmplDepth : Nat → Nat

/-- The state after Graph.reset: everything NOT_VISITED at depth 0. -/
def PruneSt.init : PruneSt :=
  ⟨fun _ => NodeState.NOT_VISITED, fun _ => NodeState.NOT_VISITED,
   fun _ => NodeState.NOT_VISITED, fun _ => NodeState.NOT_VISITED,
   fun _ => 0, fun _ => 0, fun _ => 0, fun _ => 0⟩

/-- Mark the listed card nodes VISITED at the given depth. -/
def markCards (ids : List Nat) (depth : Nat) (st : PruneSt) : PruneSt :=
  ids.foldl (fun s i =>
    { s with cardState := Function.update s.cardState i NodeState.VISITED,
             cardDepth := Function.update s.cardDepth i depth }) st

/-- Mark the listed template nodes VISITED at the given depth. -/
def markTemplates (ids : List Nat) (depth : Nat) (st : PruneSt) : PruneSt :=
  ids.foldl (fun s i =>
    { s with tmplState := Function.update s.tmplState i NodeState.VISITED,
             tmplDepth := Function.update s.tmplDepth i depth }) st

/-- Mark the listed feature nodes VISITED at the given depth. -/
def markFeatures (ids : List Nat) (depth : Nat) (st : PruneSt) : PruneSt :=
  ids.foldl (fun s i =>
    { s with featState := Function.update s.featState i NodeState.VISITED,
             featDepth := Function.update s.featDepth i depth }) st

/-- Set the depth of the listed card nodes, leaving their state alone. -/
def setCardDepths (ids : List Nat) (depth : Nat) (st : PruneSt) : PruneSt :=
  ids.foldl (fun s i => { s with cardDepth := Function.update s.cardDepth i depth }) st

/-- Set the depth of the listed combo nodes, leaving their state alone. -/
def setComboDepths (ids : List Nat) (depth : Nat) (st : PruneSt) : PruneSt :=
  ids.foldl (fun s i => { s with comboDepth := Function.update s.comboDepth i depth }) st

/-- The loop over combo.features_needed inside _combo_nodes_down; recurse is
the feature pass at the current fuel. The inner none encodes the source's
early return of the empty set; the outer none is fuel exhaustion or a
dangling reference. -/
def features_loop (g : Graph)
    (recurse : FeatureN → PruneSt → Option (Finset GNode × PruneSt)) :
    List Nat → PruneSt → Option (Option (List Nat × Finset GNode) × PruneSt)
  | [], st => some (some ([], ∅), st)
  | f :: fs, st =>
    if st.featState f == NodeState.VISITING then some (none, st)
    else
      match g.feat? f with
      | none => none
      | some fn =>
        match recurse fn st with
        | none => none
        | some (nodesf, st1) =>
          if nodesf = ∅ then some (none, st1)
          else
            match features_loop g recurse fs st1 with
            | none => none
            | some (none, st2) => some (none, st2)
            | some (some (needed, nodes), st2) => some (some (f :: needed, nodes ∪ nodesf), st2)

/-- The loop over feature.produced_by_combos inside _feature_nodes_down;
recurse is the combo pass at the current fuel. Producers that are not
NOT_VISITED are skipped; producers whose pass gives the empty set are
dropped. -/
def producers_loop (g : Graph)
    (recurse : ComboN → PruneSt → Option (Finset GNode × PruneSt)) :
    List Nat → PruneSt → Option (List Nat × Finset GNode × PruneSt)
  | [], st => some ([], ∅, st)
  | c :: cs, st =>
    if st.comboState c == NodeState.NOT_VISITED then
      match g.combo? c with
      | none => none
      | some cn =>
        match recurse cn st with
        | none => none
        | some (new_other, st1) =>
          match producers_loop g recurse cs st1 with
          | none => none
          | some (combos, other, st2) =>
            if new_other = ∅ then some (combos, other, st2)
            else some (c :: combos, other ∪ new_other, st2)
    else producers_loop g recurse cs st

/-- The downward pruning pass at a given fuel: the pair of
(Graph._combo_nodes_down, Graph._feature_nodes_down). Each nesting level
consumes one unit of fuel; at fuel 0 the pass gives up with none. The
sufficiency theorem shows fuel beyond twice the number of NOT_VISITED
combos never gives up on a well-formed graph. Structural recursion on fuel
keeps the definition kernel-computable. -/
def prune_pass (g : Graph) : Nat →
    (ComboN → Nat → Nat → PruneSt → Option (Finset GNode × PruneSt)) ×
    (FeatureN → Nat → Nat → PruneSt → Option (Finset GNode × PruneSt))
  | 0 => (fun _ _ _ _ => none, fun _ _ _ _ => none)
  | fuel + 1 =>
    (fun combo base_cards_amount depth st0 =>
      let st := { st0 with
        comboState := Function.update st0.comboState combo.id NodeState.VISITING }
      let cards := (combo.cards.filter (fun i => st.cardState i == NodeState.NOT_VISITED)).dedup
      let templates :=
        (combo.templates.filter (fun i => st.tmplState i == NodeState.NOT_VISITED)).dedup
      let cards_amount := cards.length + templates.length + base_cards_amount
      if MAX_CARDS_IN_COMBO < cards_amount then some (∅, st)
      else
        let this_combo_set : Finset GNode := {GNode.combo combo.id}
        if combo.features_needed.isEmpty then
          let st1 := markCards cards depth (markTemplates templates depth st)
          some ((cards.map GNode.card).toFinset ∪ (templates.map GNode.tmpl).toFinset ∪
            this_combo_set, st1)
        else
          match features_loop g
              (fun fn st2 => (prune_pass g fuel).2 fn cards_amount (depth + 1) st2)
              combo.features_needed st with
          | none => none
          | some (none, st1) => some (∅, st1)
          | some (some (needed_features, nodes_from_features), st1) =>
            let st2 := markCards cards depth
              (markTemplates templates depth (markFeatures needed_features depth st1))
            some ((cards.map GNode.card).toFinset ∪ (templates.map GNode.tmpl).toFinset ∪
              (needed_features.map GNode.feat).toFinset ∪ nodes_from_features ∪
              this_combo_set, st2),
     fun feature base_cards_amount depth st0 =>
      let st := { st0 with
        featState := Function.update st0.featState feature.id NodeState.VISITING }
      let cards := (feature.cards.filter (fun i => st.cardState i == NodeState.NOT_VISITED)).dedup
      match producers_loop g
          (fun cn st2 => (prune_pass g fuel).1 cn base_cards_amount (depth + 1) st2)
          feature.produced_by_combos st with
      | none => none
      | some (combos, other, st1) =>
        let st2 := setCardDepths cards depth (setComboDepths combos depth st1)
        some ((cards.map GNode.card).toFinset ∪ (combos.map GNode.combo).toFinset ∪ other, st2))

/-- Graph._combo_nodes_down at the given fuel. -/
def combo_nodes_down (g : Graph) (fuel : Nat) (combo : ComboN)
    (base_cards_amount depth : Nat) (st : PruneSt) : Option (Finset GNode × PruneSt) :=
  (prune_pass g fuel).1 combo base_cards_amount depth st

/-- Graph._feature_nodes_down at the given fuel. -/
def feature_nodes_down (g : Graph) (fuel : Nat) (feature : FeatureN)
    (base_cards_amount depth : Nat) (st : PruneSt) : Option (Finset GNode × PruneSt) :=
  (prune_pass g fuel).2 feature base_cards_amount depth st

/-! The 0/1 integer program built by base_model and the enumeration loop of
Graph.variants. -/

/-- Down flags of nodes at the time base_model runs (Graph.variants sets
node.down on every node of the down step before the up step). -/
structure DownFlags where
  card : Nat → Bool
  tmpl : Nat → Bool
  feat : Nat → Bool

/-- The constraint data generated for one ComboNode: b is the combo's
variable, the three lists are the ingredient variables kept by the source's
filters (node.down or membership in the variable index set). -/
structure ComboConstr where
  b : Nat
  cards : List Nat
  templates : List Nat
  feats : List Nat
deriving DecidableEq

/-- The constraint data generated for one FeatureNode: f is the feature's
variable, cards and combos its producers present in the model. -/
structure FeatConstr where
  f : Nat
  cards : List Nat
  combos : List Nat
deriving DecidableEq

/-- The model of base_model: the four variable index sets and the generated
constraint families. -/
structure MilpModel where
  B : Finset Nat
  F : Finset Nat
  C : Finset Nat
  T : Finset Nat
  comboConstrs : List ComboConstr
  featConstrs : List FeatConstr

/-- Embedding of base_model (variants.py): partition the node set by kind,
return none when there is no card variable, otherwise build the variable
index sets and the combo and feature constraint families. -/
def base_model (g : Graph) (nodes : List GNode) (down : DownFlags) : Option MilpModel :=
  let comboIds := (nodes.filterMap (fun n => match n with | GNode.combo i => some i | _ => none)).dedup
  let featIds := (nodes.filterMap (fun n => match n with | GNode.feat i => some i | _ => none)).dedup
  let cardIds := (nodes.filterMap (fun n => match n with | GNode.card i => some i | _ => none)).dedup
  let tmplIds := (nodes.filterMap (fun n => match n with | GNode.tmpl i => some i | _ => none)).dedup
  if cardIds.isEmpty then none
  else
    let C := cardIds.toFinset
    let T := tmplIds.toFinset
    let F := featIds.toFinset
    let B := comboIds.toFinset
    some
      { B := B, F := F, C := C, T := T
        comboConstrs := comboIds.filterMap (fun i =>
          (g.combo? i).map (fun cn =>
            { b := i
              cards := cn.cards.filter (fun c => down.card c || decide (c ∈ C))
              templates := cn.templates.filter (fun t => down.tmpl t || decide (t ∈ T))
              feats := cn.features_needed.filter (fun f => down.feat f || decide (f ∈ F)) }))
        featConstrs := featIds.filterMap (fun i =>
          (g.feat? i).map (fun fn =>
            { f := i
              cards := fn.cards.filter (fun c => decide (c ∈ C))
              combos := fn.produced_by_combos.filter (fun b => decide (b ∈ B)) })) }

/-- A 0/1 assignment to the model variables, given by the sets of variables
set to 1 (cb for combos, cf for features, cc for cards, ct for templates). -/
structure Assignment where
  cb : Finset Nat
  cf : Finset Nat
  cc : Finset Nat
  ct : Finset Nat
deriving DecidableEq

/-- Indicator of a decidable proposition, as an integer. -/
def ind (p : Prop) [Decidable p] : Int := if p then 1 else 0

/-- The constraints model.BC, model.BT, model.BF and model.BCFT generated
for one combo: the combo variable is below each of its ingredient variables
and at least their sum minus their count plus one. -/
def comboConstrHolds (a : Assignment) (con : ComboConstr) : Prop :=
  (∀ c ∈ con.cards, con.b ∈ a.cb → c ∈ a.cc) ∧
  (∀ t ∈ con.templates, con.b ∈ a.cb → t ∈ a.ct) ∧
  (∀ f ∈ con.feats, con.b ∈ a.cb → f ∈ a.cf) ∧
  ((con.cards.map (fun c => ind (c ∈ a.cc))).sum +
      (con.feats.map (fun f => ind (f ∈ a.cf))).sum +
      (con.templates.map (fun t => ind (t ∈ a.ct))).sum -
      con.cards.length - con.feats.length - con.templates.length + 1 ≤
    ind (con.b ∈ a.cb))

/-- The constraints model.FC, model.FB and model.FCB generated for one
feature: the feature variable is above each producer variable and below the
sum of all of them. -/
def featConstrHolds (a : Assignment) (fc : FeatConstr) : Prop :=
  (∀ c ∈ fc.cards, c ∈ a.cc → fc.f ∈ a.cf) ∧
  (∀ b ∈ fc.combos, b ∈ a.cb → fc.f ∈ a.cf) ∧
  (ind (fc.f ∈ a.cf) ≤
    (fc.cards.map (fun c => ind (c ∈ a.cc))).sum +
      (fc.combos.map (fun b => ind (b ∈ a.cb))).sum)

/-- An assignment is feasible for the model rooted at the target combo: the
variables stay inside their index sets, the budget constraint model.V
holds, every generated combo and feature constraint holds, and the
constraint model.XB of combo_model forces the target combo variable. -/
def Satisfies (M : MilpModel) (target : Nat) (a : Assignment) : Prop :=
  a.cb ⊆ M.B ∧ a.cf ⊆ M.F ∧ a.cc ⊆ M.C ∧ a.ct ⊆ M.T ∧
  ((M.C.sum fun i => if i ∈ a.cc then (1 : Nat) else 0) +
      (M.T.sum fun j => if j ∈ a.ct then (1 : Nat) else 0) ≤ MAX_CARDS_IN_COMBO) ∧
  (∀ con ∈ M.comboConstrs, comboConstrHolds a con) ∧
  (∀ fc ∈ M.featConstrs, featConstrHolds a fc) ∧
  target ∈ a.cb

/-- The exclusion cut added to model.Variants after a solution: over the
card variables chosen by the earlier solution only, the later solution may
keep at most all but one of them. -/
def CutOk (earlier later : Assignment) : Prop :=
  (earlier.cc.sum fun i => ind (i ∈ later.cc)) ≤ (earlier.cc.card : Int) - 1

/-- A possible run of the enumeration loop of Graph.variants over a built
model: every yielded assignment is feasible (the solver port only reports
optimal feasible assignments) and satisfies the exclusion cuts of all
earlier yields. -/
def ValidTrace (M : MilpModel) (target : Nat) : List Assignment → Prop
  | [] => True
  | a :: rest => Satisfies M target a ∧ (∀ b ∈ rest, CutOk a b) ∧ ValidTrace M target rest

/-- The possible yield lists of Graph.variants for a given node set: when
base_model returns none the loop yields nothing at all, otherwise any valid
solver trace. -/
def graph_variants_sols (g : Graph) (nodes : List GNode) (down : DownFlags)
    (combo_id : Nat) (sols : List Assignment) : Prop :=
  match base_model g nodes down with
  | none => sols = []
  | some M => ValidTrace M combo_id sols

/-- Embedding of the card list extraction of Graph.variants: the ids of the
chosen card variables are listed in the model's variable enumeration order
and sorted by node depth. Python's sorted is a stable sort and so is
insertion sort, and two stable sorts by the same key agree, so insertion
sort computes the same list. -/
def chosen_card_ids (order : List Nat) (cc : Finset Nat) (depth : Nat → Nat) : List Nat :=
  List.insertionSort (fun a b => depth a ≤ depth b) (order.filter (fun i => decide (i ∈ cc)))

/-- The ordering the specification asserts for the card list: depth
ascending with ties broken by card id ascending. -/
def depth_then_id_sort (l : List Nat) (depth : Nat → Nat) : List Nat :=
  List.insertionSort (fun a b => depth a < depth b ∨ (depth a = depth b ∧ a ≤ b)) l

/-! Decidability of the model-side predicates, used to evaluate them on
concrete inputs. -/

instance (a : Assignment) (con : ComboConstr) : Decidable (comboConstrHolds a con) := by
  unfold comboConstrHolds
  infer_instance

instance (a : Assignment) (fc : FeatConstr) : Decidable (featConstrHolds a fc) := by
  unfold featConstrHolds
  infer_instance

instance (M : MilpModel) (target : Nat) (a : Assignment) : Decidable (Satisfies M target a) := by
  unfold Satisfies
  infer_instance

instance (e l : Assignment) : Decidable (CutOk e l) := by
  unfold CutOk
  infer_instance

instance instDecidableValidTrace (M : MilpModel) (target : Nat) :
    (sols : List Assignment) → Decidable (ValidTrace M target sols)
  | [] => Decidable.isTrue trivial
  | a :: rest =>
    haveI : Decidable (ValidTrace M target rest) := instDecidableValidTrace M target rest
    (inferInstance :
      Decidable (Satisfies M target a ∧ (∀ b ∈ rest, CutOk a b) ∧ ValidTrace M target rest))

instance (g : Graph) (nodes : List GNode) (down : DownFlags) (cid : Nat)
    (sols : List Assignment) : Decidable (graph_variants_sols g nodes down cid sols) :=
  match h : base_model g nodes down with
  | none => decidable_of_iff (sols = []) (by simp [graph_variants_sols, h])
  | some M => decidable_of_iff (ValidTrace M cid sols) (by simp [graph_variants_sols, h])

/-! Supporting lemmas about pysorted and the digest shape. -/

theorem pysorted_sorted (l : List Nat) : List.Sorted (fun a b => a ≤ b) (pysorted l) :=
  List.sorted_insertionSort _ l

theorem pysorted_perm_eq {l l2 : List Nat} (h : l.Perm l2) : pysorted l = pysorted l2 :=
  List.eq_of_perm_of_sorted
    (((List.perm_insertionSort _ l).trans h).trans (List.perm_insertionSort _ l2).symm)
    (pysorted_sorted l) (pysorted_sorted l2)

theorem foldl_sha256Block_length :
    ∀ (bs : List (List Nat)) (hs : List Nat), hs.length = 8 →
      (bs.foldl sha256Block hs).length = 8 := by
  intro bs
  induction bs with
  | nil => intro hs h; simpa using h
  | cons b rest ih =>
    intro hs h
    exact ih (sha256Block hs b) rfl

theorem beBytes4_length (w : Nat) : (beBytes4 w).length = 4 := rfl

theorem foldr_beBytes4_length (ws : List Nat) :
    (ws.foldr (fun w acc => beBytes4 w ++ acc) []).length = 4 * ws.length := by
  induction ws with
  | nil => rfl
  | cons w rest ih =>
    simp only [List.foldr_cons, List.length_append, beBytes4_length, ih, List.length_cons]
    ring

theorem sha256Bytes_length (msg : List Nat) : (sha256Bytes msg).length = 32 := by
  show (((chunks64 (sha256Pad msg)).foldl sha256Block sha256H0).foldr
      (fun w acc => beBytes4 w ++ acc) []).length = 32
  rw [foldr_beBytes4_length, foldl_sha256Block_length _ sha256H0 (by rfl)]

theorem mem_foldr_beBytes4 {x : Nat} :
    ∀ (ws : List Nat), x ∈ ws.foldr (fun w acc => beBytes4 w ++ acc) [] →
      ∃ w, x ∈ beBytes4 w := by
  intro ws
  induction ws with
  | nil => intro h; cases h
  | cons w rest ih =>
    intro h
    rcases List.mem_append.mp h with h1 | h2
    · exact ⟨w, h1⟩
    · exact ih h2

theorem beBytes4_lt {x w : Nat} (h : x ∈ beBytes4 w) : x < 256 := by
  simp only [beBytes4, List.mem_cons, List.not_mem_nil, or_false] at h
  rcases h with h | h | h | h <;> subst h <;> exact Nat.mod_lt _ (by norm_num)

theorem sha256Bytes_lt (msg : List Nat) : ∀ b ∈ sha256Bytes msg, b < 256 := by
  intro b hb
  obtain ⟨w, hw⟩ := mem_foldr_beBytes4 _ hb
  exact beBytes4_lt hw

theorem hexDigit_mem (n : Nat) (h : n < 16) : hexDigit n ∈ ("0123456789abcdef").data := by
  interval_cases n <;> decide

theorem byteToHex_mem {ch : Char} {b : Nat} (hb : b < 256) (h : ch ∈ byteToHex b) :
    ch ∈ ("0123456789abcdef").data := by
  simp only [byteToHex, List.mem_cons, List.not_mem_nil, or_false] at h
  rcases h with h | h <;> subst h
  · exact hexDigit_mem _ (Nat.div_lt_of_lt_mul (by omega))
  · exact hexDigit_mem _ (Nat.mod_lt _ (by norm_num))

theorem byteToHex_length (b : Nat) : (byteToHex b).length = 2 := rfl

theorem foldr_byteToHex_length (bs : List Nat) :
    (bs.foldr (fun b acc => byteToHex b ++ acc) []).length = 2 * bs.length := by
  induction bs with
  | nil => rfl
  | cons b rest ih =>
    simp only [List.foldr_cons, List.length_append, byteToHex_length, ih, List.length_cons]
    ring

theorem bytesToHex_length (bs : List Nat) : (bytesToHex bs).length = 2 * bs.length :=
  foldr_byteToHex_length bs

theorem mem_foldr_byteToHex {ch : Char} :
    ∀ (bs : List Nat), ch ∈ bs.foldr (fun b acc => byteToHex b ++ acc) [] →
      ∃ b ∈ bs, ch ∈ byteToHex b := by
  intro bs
  induction bs with
  | nil => intro h; cases h
  | cons b rest ih =>
    intro h
    rcases List.mem_append.mp h with h1 | h2
    · exact ⟨b, List.mem_cons_self _ _, h1⟩
    · obtain ⟨b2, hb2, hc⟩ := ih h2
      exact ⟨b2, List.mem_cons_of_mem _ hb2, hc⟩

theorem sha256Hex_length (msg : List Nat) : (sha256Hex msg).length = 64 := by
  show (bytesToHex (sha256Bytes msg)).length = 64
  rw [bytesToHex_length, sha256Bytes_length]

theorem sha256Hex_chars (msg : List Nat) :
    ∀ ch ∈ (sha256Hex msg).data, ch ∈ ("0123456789abcdef").data := by
  intro ch hch
  obtain ⟨b, hb, hc⟩ := mem_foldr_byteToHex _ hch
  exact byteToHex_mem (sha256Bytes_lt msg b hb) hc

/-- C4: merge_identities evaluated at the failing inputs. The source
returns the empty string, not "C", when no W,U,B,R,G letter occurs in the
inputs (first two conjuncts; the repository's own test suite asserts "C"
there). The last two conjuncts confirm the remaining claimed behavior:
case-insensitive union emitted in the fixed W,U,B,R,G order with every
other character ignored. -/
theorem merge_identities_empty_union_bug :
    merge_identities ["", ""] = "" ∧ merge_identities ["S"] = "" ∧
    merge_identities ["w", "U"] = "WU" ∧ merge_identities ["gW", "xr"] = "WRG" := by decide

/-- C3 (counterexample): at cards [1], templates [2] the digest the source
computes differs from the digest of the whitespace-free serialization the
claim specifies, because json.dumps with default separators emits a space
after each ':' and each ','. -/
theorem unique_id_whitespace_counterexample :
    unique_id_from_cards_and_templates_ids [1] [2] ≠
      sha256Hex (utf8Bytes (spec_json_no_whitespace [1] [2])) := by decide

/-- C3 (amended): unique_id_from_cards_and_templates_ids is the lowercase
hex SHA-256 digest of the UTF-8 JSON document with both id lists sorted
ascending, serialized with Python's default separators (a space after each
':' and each ','), not whitespace-free. The digest is stable under
permutation of either input list, is 64 characters long, and uses only
lowercase hex characters. -/
theorem unique_id_amended (cards templates : List Nat) :
    unique_id_from_cards_and_templates_ids cards templates =
      sha256Hex (utf8Bytes ("\x7b\"c\": [" ++
        String.intercalate ", " ((pysorted cards).map toString) ++ "], \"t\": [" ++
        String.intercalate ", " ((pysorted templates).map toString) ++ "]\x7d")) ∧
    List.Sorted (fun a b => a ≤ b) (pysorted cards) ∧
    List.Sorted (fun a b => a ≤ b) (pysorted templates) ∧
    (∀ cards2 templates2, cards.Perm cards2 → templates.Perm templates2 →
      unique_id_from_cards_and_templates_ids cards templates =
        unique_id_from_cards_and_templates_ids cards2 templates2) ∧
    (unique_id_from_cards_and_templates_ids cards templates).length = 64 ∧
    (∀ ch ∈ (unique_id_from_cards_and_templates_ids cards templates).data,
      ch ∈ ("0123456789abcdef").data) := by
  refine ⟨?_, pysorted_sorted _, pysorted_sorted _, ?_, sha256Hex_length _, sha256Hex_chars _⟩
  · unfold unique_id_from_cards_and_templates_ids py_json_dumps_c_t py_json_int_list
    congr 2
    apply String.ext
    simp only [String.data_append, List.append_assoc, List.cons_append, List.nil_append,
      List.singleton_append]
  · intro cards2 templates2 h1 h2
    unfold unique_id_from_cards_and_templates_ids
    rw [pysorted_perm_eq h1, pysorted_perm_eq h2]

/-- Witness for unique_id_amended: permutation invariance applied at a
concrete reordering. -/
theorem unique_id_amended_witness :
    unique_id_from_cards_and_templates_ids [2, 1] [] =
      unique_id_from_cards_and_templates_ids [1, 2] [] :=
  (unique_id_amended [2, 1] []).2.2.2.1 [1, 2] [] (by decide) (by decide)

/-! Reconciler claims. -/

theorem string_length_pos_iff (s : String) : 0 < s.length ↔ s ≠ "" := by
  cases s with
  | mk l =>
    cases l with
    | nil => decide
    | cons c cs =>
      refine ⟨fun _ h => ?_, fun _ => ?_⟩
      · exact List.cons_ne_nil c cs (congrArg String.data h)
      · exact Nat.succ_pos cs.length

/-- The source's one-entry-per-combo text join equals the spec's reading:
take the field of every included combo, skip blanks, join with the
separator. -/
theorem join_field_eq_map_filter (sep : String) (combos : List ComboRow) (fld : ComboRow → String) :
    join_field sep combos fld =
      String.intercalate sep ((combos.map fld).filter (fun s => decide (s ≠ ""))) := by
  unfold join_field
  congr 1
  rw [List.filter_map]
  congr 1
  apply List.filter_congr
  intro c _
  simp only [Function.comp_apply, decide_eq_decide]
  exact string_length_pos_iff (fld c)

/-- C5: a newly created variant has status NOT_WORKING exactly when its
card id set is a superset of some NOT_WORKING variant's card set recorded in
the snapshot, and keeps the default status NEW otherwise. -/
theorem create_variant_status (data : Data) (uid : String) (vd : VariantDefinition) :
    ((create_variant data uid vd).status = VStatus.NOT_WORKING ↔
      includes_any vd.card_ids.toFinset data.not_working_variants = true) ∧
    (includes_any vd.card_ids.toFinset data.not_working_variants = false →
      (create_variant data uid vd).status = VStatus.NEW) := by
  unfold create_variant
  by_cases h : includes_any vd.card_ids.toFinset data.not_working_variants = true
  · simp [h]
  · simp only [Bool.not_eq_true] at h
    simp [h]

/-- An empty snapshot, used to instantiate theorems at concrete inputs. -/
def emptyData : Data := ⟨[], [], [], ∅, []⟩

/-- A small variant definition used to instantiate theorems. -/
def vd_one_card : VariantDefinition := ⟨[1], [], ∅, ∅, ∅⟩

/-- Witness for create_variant_status: with no NOT_WORKING variant recorded,
the created variant keeps status NEW. -/
theorem create_variant_status_witness :
    (create_variant emptyData "x" vd_one_card).status = VStatus.NEW :=
  (create_variant_status emptyData "x" vd_one_card).2 (by decide)

/-- C9: updating an existing variant whose run-start status is RESTORE with
restore set rewrites each text field as the join of the corresponding
non-empty fields of the included combos (newline separated, except
mana_needed which is space separated), and resets the status to NEW, or to
NOT_WORKING when the card set is a superset of a recorded not-working card
set; the rewritten row is saved. -/
theorem update_variant_restore_rebuilds (data : Data) (v : VariantRow) (vd : VariantDefinition) :
    (update_variant_row data v vd VStatus.RESTORE true).zone_locations =
      String.intercalate "\n" (((included_combos data vd.included_ids).map
        (fun c => c.zone_locations)).filter (fun s => decide (s ≠ ""))) ∧
    (update_variant_row data v vd VStatus.RESTORE true).cards_state =
      String.intercalate "\n" (((included_combos data vd.included_ids).map
        (fun c => c.cards_state)).filter (fun s => decide (s ≠ ""))) ∧
    (update_variant_row data v vd VStatus.RESTORE true).other_prerequisites =
      String.intercalate "\n" (((included_combos data vd.included_ids).map
        (fun c => c.other_prerequisites)).filter (fun s => decide (s ≠ ""))) ∧
    (update_variant_row data v vd VStatus.RESTORE true).mana_needed =
      String.intercalate " " (((included_combos data vd.included_ids).map
        (fun c => c.mana_needed)).filter (fun s => decide (s ≠ ""))) ∧
    (update_variant_row data v vd VStatus.RESTORE true).description =
      String.intercalate "\n" (((included_combos data vd.included_ids).map
        (fun c => c.description)).filter (fun s => decide (s ≠ ""))) ∧
    (update_variant_row data v vd VStatus.RESTORE true).status =
      (if includes_any vd.card_ids.toFinset data.not_working_variants
        then VStatus.NOT_WORKING else VStatus.NEW) := by
  simp only [← join_field_eq_map_filter]
  unfold update_variant_row
  by_cases h : includes_any vd.card_ids.toFinset data.not_working_variants = true
  · simp [h]
  · simp only [Bool.not_eq_true] at h
    simp [h]

theorem update_variant_row_unique_id (data : Data) (v : VariantRow) (vd : VariantDefinition)
    (status : VStatus) (restore : Bool) :
    (update_variant_row data v vd status restore).unique_id = v.unique_id := by
  simp only [update_variant_row]
  split <;> (try split) <;> (try split) <;> rfl

theorem update_variant_row_frozen (data : Data) (v : VariantRow) (vd : VariantDefinition)
    (status : VStatus) (restore : Bool) :
    (update_variant_row data v vd status restore).frozen = v.frozen := by
  simp only [update_variant_row]
  split <;> (try split) <;> (try split) <;> rfl

theorem update_variant_row_assoc (data : Data) (v : VariantRow) (vd : VariantDefinition)
    (status : VStatus) (restore : Bool) :
    (update_variant_row data v vd status restore).of_ids = vd.of_ids ∧
    (update_variant_row data v vd status restore).includes = vd.included_ids := by
  simp only [update_variant_row]
  constructor <;> (split <;> (try split) <;> (try split) <;> rfl)

theorem update_variant_row_ok_no_restore (data : Data) (v : VariantRow) (vd : VariantDefinition) :
    update_variant_row data v vd VStatus.OK false =
      { v with of_ids := vd.of_ids, includes := vd.included_ids,
               produces := subtract_removed_features data vd.included_ids vd.feature_ids \
                 data.utility_features_ids } := by
  simp only [update_variant_row]
  simp

/-- A frozen variant survives a generation run: some resulting row carries
its fingerprint and the frozen flag, and when its fingerprint was not
recomputed the row is the variant itself, untouched. -/
theorem generate_variants_keeps_frozen (data : Data)
    (computed : List (String × VariantDefinition)) (v : VariantRow)
    (hv : v ∈ data.variants) (hf : v.frozen = true) :
    ∃ w ∈ generate_variants data computed, w.unique_id = v.unique_id ∧ w.frozen = true ∧
      (computed.lookup v.unique_id = none → w = v) := by
  simp only [generate_variants]
  cases h : computed.lookup v.unique_id with
  | none =>
    refine ⟨v, ?_, rfl, hf, fun _ => rfl⟩
    apply List.mem_append_left
    apply List.mem_filter.mpr
    refine ⟨List.mem_map.mpr ⟨v, hv, ?_⟩, ?_⟩
    · simp [h]
    · simp [h, hf]
  | some vd =>
    refine ⟨update_variant_row data v vd v.status
      (decide (v.unique_id ∈ (data.variants.filter
        (fun u => u.status == VStatus.RESTORE)).map (fun u => u.unique_id))), ?_,
      update_variant_row_unique_id data v vd _ _, ?_, fun hc => Option.noConfusion hc⟩
    · apply List.mem_append_left
      apply List.mem_filter.mpr
      refine ⟨List.mem_map.mpr ⟨v, hv, ?_⟩, ?_⟩
      · simp [h]
      · rw [update_variant_row_unique_id, update_variant_row_frozen, hf, h]
        simp
    · rw [update_variant_row_frozen]
      exact hf

/-- A frozen variant row with empty associations. -/
def frozen_variant : VariantRow :=
  { unique_id := "u", zone_locations := "", cards_state := "", other_prerequisites := "",
    mana_needed := "", description := "", identity := "", status := VStatus.NEW,
    frozen := true, uses := [], requires := [], of_ids := ∅, includes := ∅, produces := ∅ }

/-- A snapshot containing only the frozen variant. -/
def frozen_data : Data := ⟨[], [], [frozen_variant], ∅, []⟩

/-- A variant definition that links one combo. -/
def vd_includes_one : VariantDefinition := ⟨[], [], ∅, ∅, {1}⟩

/-- C2 (counterexample): a frozen variant whose fingerprint is re-derived is
modified by the run: its persisted includes association changes from the
empty set to the recomputed one, because update_variant never consults the
frozen flag. -/
theorem generate_variants_frozen_counterexample :
    (frozen_data.variants.map (fun v => (v.frozen, v.includes)) = [(true, ∅)]) ∧
    ((generate_variants frozen_data [("u", vd_includes_one)]).map (fun v => v.includes) =
      [{1}]) := by
  decide

/-- C2 (amended): a generation run never deletes a frozen variant, and a
frozen variant whose fingerprint is not recomputed is kept byte-identical;
but update_variant ignores the frozen flag: it rewrites the of and includes
(and produces) associations of every re-derived variant, frozen or not, and
only when the stored status is OK and restore is off does it leave all
remaining fields unchanged. -/
theorem generate_variants_frozen_amended :
    (∀ (data : Data) (computed : List (String × VariantDefinition)) (v : VariantRow),
      v ∈ data.variants → v.frozen = true →
      ∃ w ∈ generate_variants data computed, w.unique_id = v.unique_id ∧ w.frozen = true ∧
        (computed.lookup v.unique_id = none → w = v)) ∧
    (∀ (data : Data) (v : VariantRow) (vd : VariantDefinition) (status : VStatus)
        (restore : Bool),
      (update_variant_row data v vd status restore).of_ids = vd.of_ids ∧
      (update_variant_row data v vd status restore).includes = vd.included_ids) ∧
    (∀ (data : Data) (v : VariantRow) (vd : VariantDefinition),
      update_variant_row data v vd VStatus.OK false =
        { v with of_ids := vd.of_ids, includes := vd.included_ids,
                 produces := subtract_removed_features data vd.included_ids vd.feature_ids \
                   data.utility_features_ids }) :=
  ⟨generate_variants_keeps_frozen, update_variant_row_assoc, update_variant_row_ok_no_restore⟩

/-- Witness for generate_variants_frozen_amended at a concrete snapshot. -/
theorem generate_variants_frozen_amended_witness :
    ∃ w ∈ generate_variants frozen_data [("u", vd_includes_one)],
      w.unique_id = frozen_variant.unique_id ∧ w.frozen = true ∧
        (List.lookup frozen_variant.unique_id [("u", vd_includes_one)] = none →
          w = frozen_variant) :=
  generate_variants_frozen_amended.1 frozen_data [("u", vd_includes_one)] frozen_variant
    (by decide) (by decide)

/-! Solver-side claims. -/

/-- Whether a graph node is a card node. -/
def GNode.isCard : GNode → Bool
  | GNode.card _ => true
  | _ => false

/-- base_model returns none whenever the node set contains no card node
(its card index set is then empty). -/
theorem base_model_none_of_no_cards (g : Graph) (nodes : List GNode) (down : DownFlags)
    (h : ∀ n ∈ nodes, n.isCard = false) : base_model g nodes down = none := by
  have hc : nodes.filterMap
      (fun n => match n with | GNode.card i => some i | _ => none) = [] := by
    rw [List.filterMap_eq_nil_iff]
    intro n hn
    have hn2 := h n hn
    cases n <;> simp [GNode.isCard] at hn2 ⊢
  simp only [base_model, hc]
  rfl

/-- C10: when the pruned subgraph holds no card node, base_model returns
none and the enumeration loop of Graph.variants yields no solution at all,
whatever templates, features or combos are available. -/
theorem variants_empty_without_cards :
    (∀ (g : Graph) (nodes : List GNode) (down : DownFlags),
      (∀ n ∈ nodes, n.isCard = false) → base_model g nodes down = none) ∧
    (∀ (g : Graph) (nodes : List GNode) (down : DownFlags) (cid : Nat) (sols : List Assignment),
      (∀ n ∈ nodes, n.isCard = false) → graph_variants_sols g nodes down cid sols →
      sols = []) := by
  refine ⟨base_model_none_of_no_cards, ?_⟩
  intro g nodes down cid sols h hsols
  unfold graph_variants_sols at hsols
  rw [base_model_none_of_no_cards g nodes down h] at hsols
  exact hsols

/-- The empty graph. -/
def graph0 : Graph := ⟨[], []⟩

/-- Down flags with nothing marked. -/
def down0 : DownFlags := ⟨fun _ => false, fun _ => false, fun _ => false⟩

/-- A node set holding one template and one combo but no card. -/
def nodes_no_cards : List GNode := [GNode.tmpl 1, GNode.combo 2]

/-- Witness for variants_empty_without_cards at a template-only node set. -/
theorem variants_empty_without_cards_witness :
    base_model graph0 nodes_no_cards down0 = none ∧ ([] : List Assignment) = [] :=
  ⟨variants_empty_without_cards.1 graph0 nodes_no_cards down0 (by decide),
   variants_empty_without_cards.2 graph0 nodes_no_cards down0 2 [] (by decide) (by decide)⟩

/-- Every member of a valid solver trace is feasible. -/
theorem validtrace_satisfies (M : MilpModel) (target : Nat) :
    ∀ (sols : List Assignment) (a : Assignment),
      ValidTrace M target sols → a ∈ sols → Satisfies M target a := by
  intro sols
  induction sols with
  | nil => intro a _ ha; cases ha
  | cons b rest ih =>
    intro a h ha
    rcases List.mem_cons.mp ha with rfl | ha2
    · exact h.1
    · exact ih a h.2.2 ha2

/-- The budget constraint bounds the chosen cards plus templates. -/
theorem satisfies_budget {M : MilpModel} {target : Nat} {a : Assignment}
    (h : Satisfies M target a) : a.cc.card + a.ct.card ≤ MAX_CARDS_IN_COMBO := by
  obtain ⟨_, _, hc, ht, hbudget, _⟩ := h
  rw [← Finset.card_filter, ← Finset.card_filter, Finset.filter_mem_eq_inter,
    Finset.filter_mem_eq_inter, Finset.inter_eq_right.mpr hc, Finset.inter_eq_right.mpr ht]
    at hbudget
  exact hbudget

/-- The new cards plus new templates a combo would add, as counted at the
top of _combo_nodes_down. -/
def extra_ingredient_count (combo : ComboN) (st : PruneSt) : Nat :=
  (combo.cards.filter (fun i => st.cardState i == NodeState.NOT_VISITED)).dedup.length +
  (combo.templates.filter (fun i => st.tmplState i == NodeState.NOT_VISITED)).dedup.length

/-- C1: every solution yielded by the enumeration loop picks at most
MAX_CARDS_IN_COMBO cards plus templates, because the model carries the
budget constraint; and the downward pruning pass returns the empty node set
for any combo whose running card and template count would exceed the
budget. -/
theorem variants_budget :
    (∀ (M : MilpModel) (target : Nat) (sols : List Assignment) (a : Assignment),
      ValidTrace M target sols → a ∈ sols →
      a.cc.card + a.ct.card ≤ MAX_CARDS_IN_COMBO) ∧
    (∀ (g : Graph) (fuel : Nat) (combo : ComboN) (base_cards_amount depth : Nat)
        (st : PruneSt) (out : Finset GNode × PruneSt),
      combo_nodes_down g fuel combo base_cards_amount depth st = some out →
      MAX_CARDS_IN_COMBO < extra_ingredient_count combo st + base_cards_amount →
      out.1 = ∅) := by
  constructor
  · intro M target sols a htrace ha
    exact satisfies_budget (validtrace_satisfies M target sols a htrace ha)
  · intro g fuel combo base depth st out h hgt
    match fuel with
    | 0 => exact Option.noConfusion h
    | fuel + 1 =>
      simp only [combo_nodes_down, prune_pass] at h
      simp only [extra_ingredient_count] at hgt
      rw [if_pos hgt] at h
      cases h
      rfl

/-- A two-card model used to instantiate the solver-side theorems. -/
def modelX : MilpModel := ⟨{1}, ∅, {10, 11}, ∅, [], []⟩

/-- First concrete solution: combo 1 with card 10. -/
def solX1 : Assignment := ⟨{1}, ∅, {10}, ∅⟩

/-- Second concrete solution: combo 1 with card 11. -/
def solX2 : Assignment := ⟨{1}, ∅, {11}, ∅⟩

/-- A combo needing six cards, over the budget. -/
def big_combo : ComboN := ⟨1, [1, 2, 3, 4, 5, 6], [], [], []⟩

/-- Witness for variants_budget: a concrete one-solution trace satisfies
the budget, and the pruning pass drops the six-card combo. -/
theorem variants_budget_witness :
    solX1.cc.card + solX1.ct.card ≤ MAX_CARDS_IN_COMBO ∧
    (combo_nodes_down graph0 1 big_combo 0 0 PruneSt.init).map Prod.fst = some ∅ := by
  constructor
  · exact variants_budget.1 modelX 1 [solX1] solX1 (by decide) (by decide)
  · cases h : combo_nodes_down graph0 1 big_combo 0 0 PruneSt.init with
    | none =>
      have hs : (combo_nodes_down graph0 1 big_combo 0 0 PruneSt.init).isSome = true := rfl
      rw [h] at hs
      cases hs
    | some out =>
      have := variants_budget.2 graph0 1 big_combo 0 0 PruneSt.init out h (by decide)
      simp [this]

/-- The exclusion cut of an earlier solution forbids any later solution
from containing all of its cards. -/
theorem cutok_not_subset {e l : Assignment} (h : CutOk e l) : ¬ e.cc ⊆ l.cc := by
  intro hsub
  unfold CutOk at h
  have he : (e.cc.sum fun i => ind (i ∈ l.cc)) = (e.cc.card : Int) := by
    have hone : ∀ i ∈ e.cc, ind (i ∈ l.cc) = 1 := fun i hi => by simp [ind, hsub hi]
    rw [Finset.sum_congr rfl hone, Finset.sum_const, nsmul_eq_mul, mul_one]
  rw [he] at h
  omega

/-- Along a valid trace no earlier card set is contained in a later one. -/
theorem validtrace_pairwise (M : MilpModel) (target : Nat) :
    ∀ (sols : List Assignment), ValidTrace M target sols →
      List.Pairwise (fun a b => ¬ a.cc ⊆ b.cc) sols := by
  intro sols
  induction sols with
  | nil => intro _; exact List.Pairwise.nil
  | cons a rest ih =>
    intro h
    exact List.Pairwise.cons (fun b hb => cutok_not_subset (h.2.1 b hb)) (ih h.2.2)

/-- C6: after each yield an exclusion cut over card variables only is
added, so along one enumeration no later solution's card set contains all
the cards of an earlier one, in particular all yielded card sets are
distinct, and the loop can only run a bounded number of iterations before
the model becomes infeasible. -/
theorem variants_exclusion_cuts (M : MilpModel) (target : Nat) (sols : List Assignment)
    (h : ValidTrace M target sols) :
    List.Pairwise (fun a b => ¬ a.cc ⊆ b.cc) sols ∧
    (sols.map (fun a => a.cc)).Nodup ∧
    sols.length ≤ 2 ^ M.C.card := by
  have hpw := validtrace_pairwise M target sols h
  have hnd : (sols.map (fun a => a.cc)).Nodup := by
    unfold List.Nodup
    rw [List.pairwise_map]
    refine List.Pairwise.imp ?_ hpw
    intro a b hab heq
    exact hab (heq ▸ Finset.Subset.refl _)
  refine ⟨hpw, hnd, ?_⟩
  have hsub : ∀ s ∈ sols.map (fun a => a.cc), s ∈ M.C.powerset := by
    intro s hs
    obtain ⟨a, ha, rfl⟩ := List.mem_map.mp hs
    exact Finset.mem_powerset.mpr (validtrace_satisfies M target sols a h ha).2.2.1
  calc sols.length = (sols.map (fun a => a.cc)).length := (List.length_map _ _).symm
    _ = (sols.map (fun a => a.cc)).toFinset.card := (List.toFinset_card_of_nodup hnd).symm
    _ ≤ (M.C.powerset).card :=
        Finset.card_le_card (fun s hs => hsub s (List.mem_toFinset.mp hs))
    _ = 2 ^ M.C.card := Finset.card_powerset _

/-- Witness for variants_exclusion_cuts at a concrete two-solution trace. -/
theorem variants_exclusion_cuts_witness :
    List.Pairwise (fun a b => ¬ a.cc ⊆ b.cc) [solX1, solX2] ∧
    (([solX1, solX2]).map (fun a => a.cc)).Nodup ∧
    ([solX1, solX2] : List Assignment).length ≤ 2 ^ modelX.C.card :=
  variants_exclusion_cuts modelX 1 [solX1, solX2] (by decide)

/-- C8 (counterexample): with two chosen cards of equal depth enumerated in
the order [2, 1], the extracted card list keeps that order, while the
claimed depth-then-id ordering would give [1, 2]. -/
theorem chosen_cards_counterexample :
    chosen_card_ids [2, 1] ({1, 2} : Finset Nat) (fun _ => 0) ≠
      depth_then_id_sort
        (([2, 1] : List Nat).filter (fun i => decide (i ∈ ({1, 2} : Finset Nat))))
        (fun _ => 0) := by decide

/-- C8 (amended): the extracted card list is the chosen card variables
sorted stably by pruning depth ascending; ties keep the model's variable
enumeration order (which is not specified to be id-ascending), and the
list is a permutation of the chosen cards in enumeration order. -/
theorem chosen_cards_sorted_by_depth (order : List Nat) (cc : Finset Nat) (depth : Nat → Nat) :
    List.Sorted (fun a b => depth a ≤ depth b) (chosen_card_ids order cc depth) ∧
    (chosen_card_ids order cc depth).Perm
      (order.filter (fun i => decide (i ∈ cc))) := by
  constructor
  · haveI : IsTotal Nat (fun a b => depth a ≤ depth b) := ⟨fun a b => Nat.le_total _ _⟩
    haveI : IsTrans Nat (fun a b => depth a ≤ depth b) :=
      ⟨fun a b c h1 h2 => Nat.le_trans h1 h2⟩
    exact List.sorted_insertionSort _ _
  · exact List.perm_insertionSort _ _

/-! Termination and cycle safety of the downward pruning pass. -/

/-- The ids of the graph's combos. -/
def comboIdsSet (g : Graph) : Finset Nat := (g.combos.map (fun c => c.id)).toFinset

/-- Number of NOT_VISITED combos, the measure that shrinks at every combo
entry of the pass. -/
def notVisited (g : Graph) (st : PruneSt) : Nat :=
  ((comboIdsSet g).filter (fun i => st.comboState i = NodeState.NOT_VISITED)).card

/-- Well-formed graph: every feature a combo needs and every combo a
feature lists as producer resolves in the graph. -/
def Graph.WF (g : Graph) : Prop :=
  (∀ c ∈ g.combos, ∀ f ∈ c.features_needed, (g.feat? f).isSome = true) ∧
  (∀ fn ∈ g.features, ∀ c ∈ fn.produced_by_combos, (g.combo? c).isSome = true)

instance (g : Graph) : Decidable (Graph.WF g) := by
  unfold Graph.WF
  infer_instance

theorem combo?_mem {g : Graph} {i : Nat} {cn : ComboN} (h : g.combo? i = some cn) :
    cn ∈ g.combos ∧ cn.id = i := by
  unfold Graph.combo? at h
  refine ⟨List.mem_of_find?_eq_some h, ?_⟩
  have h2 := List.find?_some h
  simpa using h2

theorem feat?_mem {g : Graph} {i : Nat} {fn : FeatureN} (h : g.feat? i = some fn) :
    fn ∈ g.features ∧ fn.id = i := by
  unfold Graph.feat? at h
  refine ⟨List.mem_of_find?_eq_some h, ?_⟩
  have h2 := List.find?_some h
  simpa using h2

/-- Monotonicity relation the pass maintains on the node state: combos
never return to NOT_VISITED and VISITING features stay VISITING. -/
def MonoF (st st2 : PruneSt) : Prop :=
  (∀ i, st.comboState i ≠ NodeState.NOT_VISITED → st2.comboState i ≠ NodeState.NOT_VISITED) ∧
  (∀ f, st.featState f = NodeState.VISITING → st2.featState f = NodeState.VISITING)

theorem monoF_refl (st : PruneSt) : MonoF st st := ⟨fun _ h => h, fun _ h => h⟩

theorem monoF_trans {a b c : PruneSt} (h1 : MonoF a b) (h2 : MonoF b c) : MonoF a c :=
  ⟨fun i h => h2.1 i (h1.1 i h), fun f h => h2.2 f (h1.2 f h)⟩

theorem markCards_comboState : ∀ (ids : List Nat) (d : Nat) (st : PruneSt),
    (markCards ids d st).comboState = st.comboState := by
  intro ids
  induction ids with
  | nil => intro d st; rfl
  | cons i rest ih => intro d st; exact (ih d _).trans rfl

theorem markCards_featState : ∀ (ids : List Nat) (d : Nat) (st : PruneSt),
    (markCards ids d st).featState = st.featState := by
  intro ids
  induction ids with
  | nil => intro d st; rfl
  | cons i rest ih => intro d st; exact (ih d _).trans rfl

theorem markTemplates_comboState : ∀ (ids : List Nat) (d : Nat) (st : PruneSt),
    (markTemplates ids d st).comboState = st.comboState := by
  intro ids
  induction ids with
  | nil => intro d st; rfl
  | cons i rest ih => intro d st; exact (ih d _).trans rfl

theorem markTemplates_featState : ∀ (ids : List Nat) (d : Nat) (st : PruneSt),
    (markTemplates ids d st).featState = st.featState := by
  intro ids
  induction ids with
  | nil => intro d st; rfl
  | cons i rest ih => intro d st; exact (ih d _).trans rfl

theorem markFeatures_comboState : ∀ (ids : List Nat) (d : Nat) (st : PruneSt),
    (markFeatures ids d st).comboState = st.comboState := by
  intro ids
  induction ids with
  | nil => intro d st; rfl
  | cons i rest ih => intro d st; exact (ih d _).trans rfl

theorem markFeatures_featState_not_mem : ∀ (ids : List Nat) (d : Nat) (st : PruneSt) (f : Nat),
    f ∉ ids → (markFeatures ids d st).featState f = st.featState f := by
  intro ids
  induction ids with
  | nil => intro d st f _; rfl
  | cons i rest ih =>
    intro d st f hf
    have hne : f ≠ i := fun h => hf (h ▸ List.mem_cons_self i rest)
    have hrest : f ∉ rest := fun h => hf (List.mem_cons_of_mem i h)
    refine (ih d _ f hrest).trans ?_
    exact Function.update_noteq hne _ _

theorem setCardDepths_comboState : ∀ (ids : List Nat) (d : Nat) (st : PruneSt),
    (setCardDepths ids d st).comboState = st.comboState := by
  intro ids
  induction ids with
  | nil => intro d st; rfl
  | cons i rest ih => intro d st; exact (ih d _).trans rfl

theorem setCardDepths_featState : ∀ (ids : List Nat) (d : Nat) (st : PruneSt),
    (setCardDepths ids d st).featState = st.featState := by
  intro ids
  induction ids with
  | nil => intro d st; rfl
  | cons i rest ih => intro d st; exact (ih d _).trans rfl

theorem setComboDepths_comboState : ∀ (ids : List Nat) (d : Nat) (st : PruneSt),
    (setComboDepths ids d st).comboState = st.comboState := by
  intro ids
  induction ids with
  | nil => intro d st; rfl
  | cons i rest ih => intro d st; exact (ih d _).trans rfl

theorem setComboDepths_featState : ∀ (ids : List Nat) (d : Nat) (st : PruneSt),
    (setComboDepths ids d st).featState = st.featState := by
  intro ids
  induction ids with
  | nil => intro d st; rfl
  | cons i rest ih => intro d st; exact (ih d _).trans rfl

theorem notVisited_le_of_monoF {g : Graph} {st st2 : PruneSt} (h : MonoF st st2) :
    notVisited g st2 ≤ notVisited g st := by
  apply Finset.card_le_card
  intro i hi
  rw [Finset.mem_filter] at hi ⊢
  refine ⟨hi.1, ?_⟩
  by_contra hne
  exact h.1 i hne hi.2

theorem notVisited_update_visiting {g : Graph} {st : PruneSt} {cid : Nat}
    (hmem : cid ∈ comboIdsSet g) (hnv : st.comboState cid = NodeState.NOT_VISITED) :
    notVisited g
      { st with comboState := Function.update st.comboState cid NodeState.VISITING } + 1 =
    notVisited g st := by
  unfold notVisited
  have he : (comboIdsSet g).filter
      (fun i => ({ st with
        comboState := Function.update st.comboState cid NodeState.VISITING } : PruneSt).comboState
          i = NodeState.NOT_VISITED) =
      ((comboIdsSet g).filter (fun i => st.comboState i = NodeState.NOT_VISITED)).erase cid := by
    ext i
    simp only [Finset.mem_filter, Finset.mem_erase]
    constructor
    · rintro ⟨hi, hupd⟩
      rcases eq_or_ne i cid with rfl | hne
      · rw [Function.update_same] at hupd
        exact absurd hupd (by decide)
      · rw [Function.update_noteq hne] at hupd
        exact ⟨hne, hi, hupd⟩
    · rintro ⟨hne, hi, hst⟩
      refine ⟨hi, ?_⟩
      rw [Function.update_noteq hne]
      exact hst
  rw [he, Finset.card_erase_of_mem (Finset.mem_filter.mpr ⟨hmem, hnv⟩)]
  have hpos : 0 < ((comboIdsSet g).filter
      (fun i => st.comboState i = NodeState.NOT_VISITED)).card :=
    Finset.card_pos.mpr ⟨cid, Finset.mem_filter.mpr ⟨hmem, hnv⟩⟩
  omega

theorem mem_comboIdsSet {g : Graph} {cn : ComboN} (h : cn ∈ g.combos) :
    cn.id ∈ comboIdsSet g := by
  unfold comboIdsSet
  rw [List.mem_toFinset]
  exact List.mem_map.mpr ⟨cn, h, rfl⟩

/-- Preservation along the features loop: the state evolves monotonically
and, on success, no feature that was VISITING on entry is in the collected
needed list. -/
theorem features_loop_pres (g : Graph)
    (recurse : FeatureN → PruneSt → Option (Finset GNode × PruneSt))
    (hrec : ∀ fn st ns st2, recurse fn st = some (ns, st2) → MonoF st st2) :
    ∀ (fs : List Nat) (st : PruneSt) (res : Option (List Nat × Finset GNode)) (st2 : PruneSt),
      features_loop g recurse fs st = some (res, st2) →
      MonoF st st2 ∧ (∀ needed nodes, res = some (needed, nodes) →
        ∀ f, st.featState f = NodeState.VISITING → f ∉ needed) := by
  intro fs
  induction fs with
  | nil =>
    intro st res st2 h
    rw [features_loop] at h
    cases h
    refine ⟨monoF_refl st, ?_⟩
    intro needed nodes heq f _
    cases heq
    exact List.not_mem_nil f
  | cons f0 fs ih =>
    intro st res st2 h
    rw [features_loop] at h
    split at h
    · cases h
      exact ⟨monoF_refl st, fun needed nodes heq => Option.noConfusion heq⟩
    · next hv =>
      split at h
      · exact Option.noConfusion h
      · next fn hfq =>
        cases hr : recurse fn st with
        | none => rw [hr] at h; exact Option.noConfusion h
        | some p =>
          obtain ⟨nodesf, st1⟩ := p
          rw [hr] at h
          dsimp only at h
          have hm1 : MonoF st st1 := hrec fn st nodesf st1 hr
          split at h
          · cases h
            exact ⟨hm1, fun needed nodes heq => Option.noConfusion heq⟩
          · split at h
            · exact Option.noConfusion h
            · rename_i st2a hloop
              cases h
              obtain ⟨hm2, _⟩ := ih st1 none st2 hloop
              exact ⟨monoF_trans hm1 hm2, fun needed nodes heq => Option.noConfusion heq⟩
            · rename_i needed1 nodes1 st2a hloop
              cases h
              obtain ⟨hm2, hnd⟩ := ih st1 (some (needed1, nodes1)) st2 hloop
              refine ⟨monoF_trans hm1 hm2, ?_⟩
              intro needed nodes heq f hf
              cases heq
              rw [List.mem_cons]
              rintro (rfl | hmem)
              · exact hv (by rw [hf]; rfl)
              · exact hnd needed1 nodes1 rfl f (hm1.2 f hf) hmem

/-- Preservation along the producers loop. -/
theorem producers_loop_pres (g : Graph)
    (recurse : ComboN → PruneSt → Option (Finset GNode × PruneSt))
    (hrec : ∀ cn st ns st2, recurse cn st = some (ns, st2) → MonoF st st2) :
    ∀ (cs : List Nat) (st : PruneSt) (combos : List Nat) (other : Finset GNode) (st2 : PruneSt),
      producers_loop g recurse cs st = some (combos, other, st2) → MonoF st st2 := by
  intro cs
  induction cs with
  | nil =>
    intro st combos other st2 h
    rw [producers_loop] at h
    cases h
    exact monoF_refl st
  | cons c0 cs ih =>
    intro st combos other st2 h
    rw [producers_loop] at h
    split at h
    · split at h
      · exact Option.noConfusion h
      · next cn hcq =>
        cases hr : recurse cn st with
        | none => rw [hr] at h; exact Option.noConfusion h
        | some p =>
          obtain ⟨new_other, st1⟩ := p
          rw [hr] at h
          dsimp only at h
          have hm1 : MonoF st st1 := hrec cn st new_other st1 hr
          split at h
          · exact Option.noConfusion h
          · rename_i combos1 other1 st2a hloop
            have hm2 := ih st1 combos1 other1 st2a hloop
            split at h <;> cases h <;> exact monoF_trans hm1 hm2
    · exact ih st combos other st2 h

/-- Preservation for the full pass, by induction on fuel: any successful
run evolves the state monotonically (combos never return to NOT_VISITED,
VISITING features stay VISITING). -/
theorem prune_pass_pres : ∀ (fuel : Nat),
    (∀ (g : Graph) (cn : ComboN) (b d : Nat) (st : PruneSt) (ns : Finset GNode) (st2 : PruneSt),
      combo_nodes_down g fuel cn b d st = some (ns, st2) → MonoF st st2) ∧
    (∀ (g : Graph) (fn : FeatureN) (b d : Nat) (st : PruneSt) (ns : Finset GNode) (st2 : PruneSt),
      feature_nodes_down g fuel fn b d st = some (ns, st2) → MonoF st st2) := by
  intro fuel
  induction fuel with
  | zero =>
    constructor
    · intro g cn b d st ns st2 h
      exact Option.noConfusion h
    · intro g fn b d st ns st2 h
      exact Option.noConfusion h
  | succ fuel ih =>
    constructor
    · intro g cn b d st ns st2 h
      simp only [combo_nodes_down, prune_pass] at h
      have hstep : MonoF st { st with
          comboState := Function.update st.comboState cn.id NodeState.VISITING } := by
        constructor
        · intro i hi
          show Function.update st.comboState cn.id NodeState.VISITING i ≠ NodeState.NOT_VISITED
          rcases eq_or_ne i cn.id with rfl | hne
          · rw [Function.update_same]
            exact fun hc => NodeState.noConfusion hc
          · rw [Function.update_noteq hne]
            exact hi
        · intro f hf
          exact hf
      split at h
      · cases h
        exact hstep
      · split at h
        · cases h
          refine monoF_trans hstep ⟨?_, ?_⟩
          · intro i hi
            rw [markCards_comboState, markTemplates_comboState]
            exact hi
          · intro f hf
            rw [markCards_featState, markTemplates_featState]
            exact hf
        · split at h
          · exact Option.noConfusion h
          · rename_i st1 hloop
            cases h
            have hp := features_loop_pres g _
              (fun fn2 stq ns2 st2q hq => (ih).2 g fn2 _ _ stq ns2 st2q hq)
              cn.features_needed _ none st2 hloop
            exact monoF_trans hstep hp.1
          · rename_i needed1 nodes1 st1 hloop
            cases h
            have hp := features_loop_pres g _
              (fun fn2 stq ns2 st2q hq => (ih).2 g fn2 _ _ stq ns2 st2q hq)
              cn.features_needed _ (some (needed1, nodes1)) st1 hloop
            constructor
            · intro i hi
              rw [markCards_comboState, markTemplates_comboState, markFeatures_comboState]
              exact hp.1.1 i (hstep.1 i hi)
            · intro f hf
              have hfV : ({ st with
                  comboState := Function.update st.comboState cn.id NodeState.VISITING } :
                    PruneSt).featState f = NodeState.VISITING := hf
              have hnm : f ∉ needed1 := hp.2 needed1 nodes1 rfl f hfV
              rw [markCards_featState, markTemplates_featState,
                markFeatures_featState_not_mem needed1 d _ f hnm]
              exact hp.1.2 f hfV
    · intro g fn b d st ns st2 h
      simp only [feature_nodes_down, prune_pass] at h
      have hstep : MonoF st { st with
          featState := Function.update st.featState fn.id NodeState.VISITING } := by
        constructor
        · intro i hi
          exact hi
        · intro f hf
          show Function.update st.featState fn.id NodeState.VISITING f = NodeState.VISITING
          rcases eq_or_ne f fn.id with rfl | hne
          · rw [Function.update_same]
          · rw [Function.update_noteq hne]
            exact hf
      split at h
      · exact Option.noConfusion h
      · rename_i combos1 other1 st1 hloop
        cases h
        have hp := producers_loop_pres g _
          (fun cn2 stq ns2 st2q hq => (ih).1 g cn2 _ _ stq ns2 st2q hq)
          fn.produced_by_combos _ combos1 other1 st1 hloop
        refine monoF_trans hstep (monoF_trans hp ⟨?_, ?_⟩)
        · intro i hi
          rw [setCardDepths_comboState, setComboDepths_comboState]
          exact hi
        · intro f hf
          rw [setCardDepths_featState, setComboDepths_featState]
          exact hf

/-- The features loop succeeds whenever every listed feature resolves and
the recursive pass succeeds below the measure bound. -/
theorem features_loop_some (g : Graph)
    (recurse : FeatureN → PruneSt → Option (Finset GNode × PruneSt)) (K : Nat)
    (hpres : ∀ fn st ns st2, recurse fn st = some (ns, st2) → MonoF st st2)
    (hsome : ∀ fn st, fn ∈ g.features → notVisited g st ≤ K → ∃ p, recurse fn st = some p) :
    ∀ (fs : List Nat) (st : PruneSt), (∀ f ∈ fs, (g.feat? f).isSome = true) →
      notVisited g st ≤ K →
      ∃ res st2, features_loop g recurse fs st = some (res, st2) := by
  intro fs
  induction fs with
  | nil =>
    intro st _ _
    exact ⟨some ([], ∅), st, rfl⟩
  | cons f0 fs ih =>
    intro st hfs hK
    rw [features_loop]
    by_cases hv : (st.featState f0 == NodeState.VISITING) = true
    · rw [if_pos hv]
      exact ⟨none, st, rfl⟩
    · rw [if_neg hv]
      cases hfq : g.feat? f0 with
      | none =>
        have hcontra := hfs f0 (List.mem_cons_self f0 fs)
        rw [hfq] at hcontra
        cases hcontra
      | some fn =>
        dsimp only
        obtain ⟨p, hr⟩ := hsome fn st (feat?_mem hfq).1 hK
        obtain ⟨nodesf, st1⟩ := p
        rw [hr]
        dsimp only
        by_cases hz : nodesf = ∅
        · rw [if_pos hz]
          exact ⟨none, st1, rfl⟩
        · rw [if_neg hz]
          have hm1 := hpres fn st nodesf st1 hr
          obtain ⟨res1, st2a, hl⟩ := ih st1 (fun f hf => hfs f (List.mem_cons_of_mem f0 hf))
            (le_trans (notVisited_le_of_monoF hm1) hK)
          rw [hl]
          cases res1 with
          | none => exact ⟨none, st2a, rfl⟩
          | some r =>
            obtain ⟨needed1, nodes1⟩ := r
            exact ⟨some (f0 :: needed1, nodes1 ∪ nodesf), st2a, rfl⟩

/-- The producers loop succeeds whenever every listed combo resolves and
the recursive pass succeeds below the measure bound. -/
theorem producers_loop_some (g : Graph)
    (recurse : ComboN → PruneSt → Option (Finset GNode × PruneSt)) (K : Nat)
    (hpres : ∀ cn st ns st2, recurse cn st = some (ns, st2) → MonoF st st2)
    (hsome : ∀ cn st, cn ∈ g.combos → st.comboState cn.id = NodeState.NOT_VISITED →
      notVisited g st ≤ K → ∃ p, recurse cn st = some p) :
    ∀ (cs : List Nat) (st : PruneSt), (∀ c ∈ cs, (g.combo? c).isSome = true) →
      notVisited g st ≤ K →
      ∃ combos other st2, producers_loop g recurse cs st = some (combos, other, st2) := by
  intro cs
  induction cs with
  | nil =>
    intro st _ _
    exact ⟨[], ∅, st, rfl⟩
  | cons c0 cs ih =>
    intro st hcs hK
    rw [producers_loop]
    by_cases hv : (st.comboState c0 == NodeState.NOT_VISITED) = true
    · rw [if_pos hv]
      cases hcq : g.combo? c0 with
      | none =>
        have hcontra := hcs c0 (List.mem_cons_self c0 cs)
        rw [hcq] at hcontra
        cases hcontra
      | some cn =>
        dsimp only
        have hcm := combo?_mem hcq
        have hnv : st.comboState cn.id = NodeState.NOT_VISITED := by
          rw [hcm.2]
          simpa using hv
        obtain ⟨p, hr⟩ := hsome cn st hcm.1 hnv hK
        obtain ⟨new_other, st1⟩ := p
        rw [hr]
        dsimp only
        have hm1 := hpres cn st new_other st1 hr
        obtain ⟨combos1, other1, st2a, hl⟩ := ih st1
          (fun c hc => hcs c (List.mem_cons_of_mem c0 hc))
          (le_trans (notVisited_le_of_monoF hm1) hK)
        rw [hl]
        dsimp only
        by_cases hz : new_other = ∅
        · rw [if_pos hz]
          exact ⟨combos1, other1, st2a, rfl⟩
        · rw [if_neg hz]
          exact ⟨c0 :: combos1, other1 ∪ new_other, st2a, rfl⟩
    · rw [if_neg hv]
      exact ih st (fun c hc => hcs c (List.mem_cons_of_mem c0 hc)) hK

/-- Fuel sufficiency: on a well-formed graph the pass never runs out of
fuel once the fuel exceeds twice the number of NOT_VISITED combos, because
every combo entry permanently leaves NOT_VISITED. -/
theorem prune_pass_some : ∀ (fuel : Nat),
    (∀ (g : Graph) (cn : ComboN) (b d : Nat) (st : PruneSt), Graph.WF g → cn ∈ g.combos →
      st.comboState cn.id = NodeState.NOT_VISITED → 2 * notVisited g st ≤ fuel →
      ∃ p, combo_nodes_down g fuel cn b d st = some p) ∧
    (∀ (g : Graph) (fn : FeatureN) (b d : Nat) (st : PruneSt), Graph.WF g → fn ∈ g.features →
      2 * notVisited g st + 1 ≤ fuel →
      ∃ p, feature_nodes_down g fuel fn b d st = some p) := by
  intro fuel
  induction fuel with
  | zero =>
    constructor
    · intro g cn b d st _ hcn hnv hfuel
      have hpos : 0 < notVisited g st :=
        Finset.card_pos.mpr ⟨cn.id, Finset.mem_filter.mpr ⟨mem_comboIdsSet hcn, hnv⟩⟩
      omega
    · intro g fn b d st _ _ hfuel
      omega
  | succ fuel ih =>
    constructor
    · intro g cn b d st hwf hcn hnv hfuel
      simp only [combo_nodes_down, prune_pass]
      by_cases hbudget : MAX_CARDS_IN_COMBO <
          (cn.cards.filter (fun i => st.cardState i == NodeState.NOT_VISITED)).dedup.length +
            (cn.templates.filter (fun i => st.tmplState i == NodeState.NOT_VISITED)).dedup.length +
            b
      · rw [if_pos hbudget]
        exact ⟨_, rfl⟩
      · rw [if_neg hbudget]
        by_cases hempty : cn.features_needed.isEmpty = true
        · rw [if_pos hempty]
          exact ⟨_, rfl⟩
        · rw [if_neg hempty]
          have hdec := notVisited_update_visiting (mem_comboIdsSet hcn) hnv
          obtain ⟨res, st2a, hl⟩ := features_loop_some g
            (fun fn2 st2 => (prune_pass g fuel).2 fn2
              ((cn.cards.filter (fun i => st.cardState i == NodeState.NOT_VISITED)).dedup.length +
                (cn.templates.filter
                  (fun i => st.tmplState i == NodeState.NOT_VISITED)).dedup.length + b)
              (d + 1) st2)
            (notVisited g { st with
              comboState := Function.update st.comboState cn.id NodeState.VISITING })
            (fun fn2 stq ns2 st2q hq => (prune_pass_pres fuel).2 g fn2 _ _ stq ns2 st2q hq)
            (fun fn2 stq hfn2 hle => ih.2 g fn2 _ _ stq hwf hfn2 (by omega))
            cn.features_needed
            { st with comboState := Function.update st.comboState cn.id NodeState.VISITING }
            (fun f hf => hwf.1 cn hcn f hf)
            (le_refl _)
          rw [hl]
          cases res with
          | none => exact ⟨_, rfl⟩
          | some r =>
            obtain ⟨n1, n2⟩ := r
            exact ⟨_, rfl⟩
    · intro g fn b d st hwf hfn hfuel
      simp only [feature_nodes_down, prune_pass]
      obtain ⟨combos1, other1, st2a, hl⟩ := producers_loop_some g
        (fun cn2 st2 => (prune_pass g fuel).1 cn2 b (d + 1) st2)
        (notVisited g st)
        (fun cn2 stq ns2 st2q hq => (prune_pass_pres fuel).1 g cn2 _ _ stq ns2 st2q hq)
        (fun cn2 stq hcn2 hnvq hle => ih.1 g cn2 _ _ stq hwf hcn2 hnvq (by omega))
        fn.produced_by_combos
        { st with featState := Function.update st.featState fn.id NodeState.VISITING }
        (fun c hc => hwf.2 fn hfn c hc)
        (le_refl _)
      rw [hl]
      exact ⟨_, rfl⟩

/-- If some listed feature is VISITING when the loop starts, the loop can
never complete successfully: it hits that feature (still VISITING, by
preservation) and signals the early empty-set return. -/
theorem features_loop_visiting_no_success (g : Graph)
    (recurse : FeatureN → PruneSt → Option (Finset GNode × PruneSt))
    (hpres : ∀ fn st ns st2, recurse fn st = some (ns, st2) → MonoF st st2) :
    ∀ (fs : List Nat) (st : PruneSt) (f : Nat), f ∈ fs →
      st.featState f = NodeState.VISITING →
      ∀ needed nodes st2, features_loop g recurse fs st ≠ some (some (needed, nodes), st2) := by
  intro fs
  induction fs with
  | nil =>
    intro st f hf
    cases hf
  | cons f0 fs ih =>
    intro st f hf hvis needed nodes st2 h
    rw [features_loop] at h
    split at h
    · cases h
    · rename_i hv
      split at h
      · exact Option.noConfusion h
      · rename_i fn hfq
        cases hr : recurse fn st with
        | none => rw [hr] at h; exact Option.noConfusion h
        | some p =>
          obtain ⟨nodesf, st1⟩ := p
          rw [hr] at h
          dsimp only at h
          split at h
          · cases h
          · split at h
            · exact Option.noConfusion h
            · cases h
            · rename_i needed1 nodes1 st2x hloop
              have hne : f ≠ f0 := by
                intro heq
                apply hv
                rw [← heq, hvis]
                rfl
              have hf2 : f ∈ fs := by
                rcases List.mem_cons.mp hf with rfl | hmem
                · exact absurd rfl hne
                · exact hmem
              exact ih st1 f hf2 ((hpres fn st nodesf st1 hr).2 f hvis)
                needed1 nodes1 st2x hloop

/-- C7: the mutually recursive downward pruning pass terminates on every
finite well-formed graph, even in the presence of feature-combo cycles:
fuel beyond twice the combo count always suffices (every combo entry
permanently leaves NOT_VISITED); and a combo one of whose needed features
is in the VISITING state contributes no nodes at all, so no path closing a
cycle adds nodes or variants. -/
theorem pruning_terminates_and_cuts_cycles :
    (∀ (g : Graph) (cn : ComboN) (b d : Nat) (st : PruneSt) (fuel : Nat),
      Graph.WF g → cn ∈ g.combos → st.comboState cn.id = NodeState.NOT_VISITED →
      2 * notVisited g st ≤ fuel →
      (combo_nodes_down g fuel cn b d st).isSome = true) ∧
    (∀ (g : Graph) (cn : ComboN) (b d : Nat) (st : PruneSt) (fuel : Nat)
        (ns : Finset GNode) (st2 : PruneSt),
      combo_nodes_down g fuel cn b d st = some (ns, st2) →
      (∃ f ∈ cn.features_needed, st.featState f = NodeState.VISITING) →
      ns = ∅) := by
  constructor
  · intro g cn b d st fuel hwf hcn hnv hfuel
    obtain ⟨p, hp⟩ := (prune_pass_some fuel).1 g cn b d st hwf hcn hnv hfuel
    rw [hp]
    rfl
  · intro g cn b d st fuel ns st2 h hex
    obtain ⟨f, hf, hvis⟩ := hex
    match fuel with
    | 0 => exact Option.noConfusion h
    | fuel + 1 =>
      simp only [combo_nodes_down, prune_pass] at h
      split at h
      · cases h
        rfl
      · split at h
        · rename_i hempty
          rw [List.isEmpty_iff] at hempty
          rw [hempty] at hf
          cases hf
        · split at h
          · exact Option.noConfusion h
          · cases h
            rfl
          · rename_i needed1 nodes1 st1 hloop
            exfalso
            exact features_loop_visiting_no_success g
              (fun fn2 st2 => (prune_pass g fuel).2 fn2
                ((cn.cards.filter (fun i => st.cardState i == NodeState.NOT_VISITED)).dedup.length +
                  (cn.templates.filter
                    (fun i => st.tmplState i == NodeState.NOT_VISITED)).dedup.length + b)
                (d + 1) st2)
              (fun fn2 stq ns2 st2q hq => (prune_pass_pres fuel).2 g fn2 _ _ stq ns2 st2q hq)
              cn.features_needed
              { st with comboState := Function.update st.comboState cn.id NodeState.VISITING }
              f hf hvis needed1 nodes1 st1 hloop

/-- A feature produced only by the combo that needs it: a direct cycle. -/
def cyc_feature : FeatureN := ⟨5, [], [1], []⟩

/-- A combo using card 7, needing and producing feature 5. -/
def cyc_combo : ComboN := ⟨1, [7], [], [5], [5]⟩

/-- The cyclic graph combo 1 needs feature 5 needs combo 1. -/
def cyc_graph : Graph := ⟨[cyc_combo], [cyc_feature]⟩

/-- The reset state with feature 5 marked VISITING, as on a stack that is
about to close the cycle. -/
def cyc_st : PruneSt :=
  { PruneSt.init with
    featState := Function.update PruneSt.init.featState 5 NodeState.VISITING }

/-- Witness for pruning_terminates_and_cuts_cycles on the concrete cyclic
graph: the pass succeeds within the fuel bound, and with feature 5 already
VISITING the combo contributes no nodes. -/
theorem pruning_terminates_and_cuts_cycles_witness :
    (combo_nodes_down cyc_graph 2 cyc_combo 0 0 PruneSt.init).isSome = true ∧
    (combo_nodes_down cyc_graph 2 cyc_combo 0 0 cyc_st).map Prod.fst = some ∅ := by
  constructor
  · exact pruning_terminates_and_cuts_cycles.1 cyc_graph cyc_combo 0 0 PruneSt.init 2
      (by decide) (by decide) (by decide) (by decide)
  · cases h : combo_nodes_down cyc_graph 2 cyc_combo 0 0 cyc_st with
    | none =>
      have hs : (combo_nodes_down cyc_graph 2 cyc_combo 0 0 cyc_st).isSome = true := rfl
      rw [h] at hs
      cases hs
    | some out =>
      obtain ⟨ns, st2⟩ := out
      have hres := pruning_terminates_and_cuts_cycles.2 cyc_graph cyc_combo 0 0 cyc_st 2 ns st2 h
        ⟨5, by decide, by decide⟩
      simp [hres]
